import Mathlib

/-!
Verification of the go-mini-erp inventory ledger and balance engine.

Shallow embedding of the inventory subsystem of the mini-ERP repository:
the PostgreSQL schema (`stock_balances`, `stock_movements`,
`stock_adjustments`, `stock_adjustment_lines`, order-line tables) and the
sqlc query operations (`UpsertStockBalance`, `UpdateStockQuantity`,
`ListStockBalances`, `CreateStockMovement`, `CreateStockAdjustmentLine`,
`UpdateStockAdjustmentStatus`, `UpdatePOLineReceivedQty`,
`UpdateSOLineDeliveredQty`).

Quantities are `DECIMAL(15,3)` in the schema; fixed-point decimal addition
and subtraction are exact, so quantities are modelled as integers (in
milli-units).  Tables are modelled as lists of rows; timestamps
(`NOW()`) are abstract `Nat` parameters supplied by the caller.

The Go service layer that orchestrates these queries (append with
idempotency/quantity/floor checks, fulfillment tracking, adjustment
confirmation) is not part of the repository snapshot; those operations are
modelled from the spec, each marked `Modelled from the spec:` in its doc
comment, on top of the embedded query operations.
-/

namespace MiniErp

/-- Product identifier (`products.id`, a UUID in the schema). -/
abbrev ProductId := Nat

/-- Location identifier (`stock_locations.id`, a UUID in the schema). -/
abbrev LocationId := Nat

/-- One row of the `stock_balances` table.
`available_qty` is a generated column (`GENERATED ALWAYS AS
(quantity - reserved_qty) STORED`) and is therefore modelled as a
function, not a field.  The schema has `UNIQUE(product_id, location_id)`. -/
structure StockBalance where
  product_id : ProductId
  location_id : LocationId
  quantity : Int
  reserved_qty : Int
  last_updated : Nat
  deriving Repr, DecidableEq

/-- The generated column `available_qty DECIMAL(15,3) GENERATED ALWAYS AS
(quantity - reserved_qty) STORED` of `stock_balances`. -/
def StockBalance.available_qty (b : StockBalance) : Int :=
  b.quantity - b.reserved_qty

/-- Key predicate of the `UNIQUE(product_id, location_id)` constraint:
does this row belong to the given (product, location) pair? -/
def StockBalance.keyIs (b : StockBalance) (p : ProductId) (l : LocationId) : Bool :=
  b.product_id == p && b.location_id == l

/-- The `stock_balances` table: a list of rows.  Well-formedness
(uniqueness of the (product, location) key) is a separate predicate. -/
abbrev BalanceTable := List StockBalance

/-- The `UNIQUE(product_id, location_id)` constraint of `stock_balances`:
no two rows share a (product, location) pair. -/
def BalanceTable.WF (rows : BalanceTable) : Prop :=
  rows.Pairwise (fun a b => ¬(a.product_id = b.product_id ∧ a.location_id = b.location_id))

/-- Query `UpsertStockBalance` (sqlc, `:one`):
`INSERT INTO stock_balances (product_id, location_id, quantity,
reserved_qty, last_updated) VALUES ($1,$2,$3,$4,NOW())
ON CONFLICT (product_id, location_id) DO UPDATE SET
quantity = stock_balances.quantity + EXCLUDED.quantity,
last_updated = NOW()`.
On conflict only `quantity` and `last_updated` are written; the
`reserved_qty` argument is used only when the row is first created. -/
def UpsertStockBalance (rows : BalanceTable) (p : ProductId) (l : LocationId)
    (q r : Int) (now : Nat) : BalanceTable :=
  if rows.any (fun b => b.keyIs p l) then
    rows.map (fun b =>
      if b.keyIs p l then
        { b with quantity := b.quantity + q, last_updated := now }
      else b)
  else
    rows ++ [{ product_id := p, location_id := l, quantity := q,
               reserved_qty := r, last_updated := now }]

/-- Query `UpdateStockQuantity` (sqlc, `:exec`):
`UPDATE stock_balances SET quantity = quantity + $3, last_updated = NOW()
WHERE product_id = $1 AND location_id = $2`. -/
def UpdateStockQuantity (rows : BalanceTable) (p : ProductId) (l : LocationId)
    (delta : Int) (now : Nat) : BalanceTable :=
  rows.map (fun b =>
    if b.keyIs p l then
      { b with quantity := b.quantity + delta, last_updated := now }
    else b)

/-- Query `GetStockBalance` (sqlc, `:one`):
`SELECT ... FROM stock_balances sb ... WHERE sb.product_id = $1 AND
sb.location_id = $2 LIMIT 1`. -/
def GetStockBalance (rows : BalanceTable) (p : ProductId) (l : LocationId) :
    Option StockBalance :=
  rows.find? (fun b => b.keyIs p l)

/-- Query `ListStockBalances` (sqlc, `:many`): the WHERE clause
`($1::uuid IS NULL OR sb.product_id = $1)
AND ($2::uuid IS NULL OR sb.location_id = $2)
AND ($3::boolean IS NULL OR (sb.quantity > 0) = $3)`.
(The INNER JOINs to `products`/`stock_locations` only add display columns
and, under the NOT NULL foreign keys, keep exactly one result row per
balance row; the ORDER BY is over joined name columns and does not affect
which rows are returned.) -/
def ListStockBalances (rows : BalanceTable) (pFilter : Option ProductId)
    (lFilter : Option LocationId) (nonZeroOnly : Option Bool) : BalanceTable :=
  rows.filter (fun b =>
    (match pFilter with
     | none => true
     | some p => b.product_id == p)
    && (match lFilter with
        | none => true
        | some l => b.location_id == l)
    && (match nonZeroOnly with
        | none => true
        | some f => (decide (0 < b.quantity)) == f))

/-- The `movement_type VARCHAR(20)` column of `stock_movements`:
one of 'in', 'out', 'adjustment', 'transfer'. -/
inductive MovementType where
  | in_
  | out
  | adjustment
  | transfer
  deriving Repr, DecidableEq

/-- One row of the append-only `stock_movements` table.
`movement_number VARCHAR(50) UNIQUE NOT NULL` is the caller-supplied
idempotency key.  Per the spec's data model, the stored `quantity` is an
always-positive magnitude for 'in'/'out'/'transfer' and a signed value for
'adjustment' (sign/kind consistently determines the balance effect). -/
structure StockMovement where
  movement_number : String
  product_id : ProductId
  location_id : LocationId
  movement_type : MovementType
  quantity : Int
  reference_type : Option String
  reference_id : Option Nat
  movement_date : Nat
  notes : Option String
  created_by : Option Nat
  deriving Repr, DecidableEq

/-- The signed balance effect of a stored movement, as the spec's ledger
fold prescribes: positive for kind 'in', negative for kind 'out', the
stored signed value for 'adjustment' (and 'transfer' contributes its
stored quantity at the recorded location). -/
def StockMovement.signedQty (m : StockMovement) : Int :=
  match m.movement_type with
  | .in_ => m.quantity
  | .out => -m.quantity
  | .adjustment => m.quantity
  | .transfer => m.quantity

/-- Query `CreateStockMovement` (sqlc, `:one`): plain INSERT of one row
into `stock_movements`; the table is append-only (no UPDATE/DELETE query
against it exists). -/
def CreateStockMovement (ledger : List StockMovement) (m : StockMovement) :
    List StockMovement :=
  ledger ++ [m]

/-- A movement draft as taken by the spec's Ledger Store contract
`append(movement_draft)`: product, location, kind/sign, quantity (> 0),
optional reference, effective time, an idempotency key (the "movement
number"), and the flag marking a movement as an unchecked adjustment
(spec §4.2: only such movements may drive on-hand below zero).
`negative` is the sign accompanying the kind; it is meaningful for
'adjustment' drafts, whose stored quantity is signed. -/
structure MovementDraft where
  movement_number : String
  product_id : ProductId
  location_id : LocationId
  movement_type : MovementType
  quantity : Int
  negative : Bool
  unchecked : Bool
  reference_type : Option String
  reference_id : Option Nat
  movement_date : Nat
  notes : Option String
  created_by : Option Nat
  deriving Repr, DecidableEq

/-- The signed balance delta of a draft: `+quantity` for 'in',
`-quantity` for 'out', `±quantity` (by the draft's sign) for
'adjustment', `+quantity` for 'transfer'. -/
def MovementDraft.signedDelta (d : MovementDraft) : Int :=
  match d.movement_type with
  | .in_ => d.quantity
  | .out => -d.quantity
  | .adjustment => if d.negative then -d.quantity else d.quantity
  | .transfer => d.quantity

/-- The stored `quantity` column for a draft: the signed value for
'adjustment' rows, the positive magnitude for the other kinds. -/
def MovementDraft.storedQty (d : MovementDraft) : Int :=
  match d.movement_type with
  | .adjustment => if d.negative then -d.quantity else d.quantity
  | _ => d.quantity

/-- The `stock_movements` row a draft inserts. -/
def MovementDraft.toMovement (d : MovementDraft) : StockMovement :=
  { movement_number := d.movement_number
    product_id := d.product_id
    location_id := d.location_id
    movement_type := d.movement_type
    quantity := d.storedQty
    reference_type := d.reference_type
    reference_id := d.reference_id
    movement_date := d.movement_date
    notes := d.notes
    created_by := d.created_by }

/-- A draft is an unchecked adjustment (the only movements the spec allows
to drive on-hand below zero). -/
def MovementDraft.isUncheckedAdjustment (d : MovementDraft) : Bool :=
  d.movement_type == .adjustment && d.unchecked

/-- The error taxonomy of the spec's Ledger Store append (§4.1, §7).
`DuplicateMovement` carries the originally committed movement, since the
spec directs the caller to treat the error as success by fetching the
existing movement. -/
inductive AppendError where
  | InvalidQuantity
  | DuplicateMovement (original : StockMovement)
  | InsufficientStock
  deriving Repr, DecidableEq

/-- The inventory state the engine operates on: the append-only
`stock_movements` ledger plus the `stock_balances` table. -/
structure InventoryState where
  movements : List StockMovement
  balances : BalanceTable
  deriving Repr, DecidableEq

/-- The empty database state. -/
def InventoryState.initial : InventoryState :=
  { movements := [], balances := [] }

/-- Current on-hand quantity of a (product, location) pair: the
`quantity` of its `stock_balances` row, `0` when no row exists yet. -/
def InventoryState.onHand (st : InventoryState) (p : ProductId) (l : LocationId) : Int :=
  match GetStockBalance st.balances p l with
  | some b => b.quantity
  | none => 0

/-- Modelled from the spec: the Ledger Store `append` operation (§4.1)
together with the Balance Projector update (§4.2); the Go service layer
implementing it is not part of the repository snapshot.  It
(1) fails with `InvalidQuantity` if the draft quantity ≤ 0,
(2) fails with `DuplicateMovement` (returning the original movement) if
the idempotency key is already committed,
(3) fails with `InsufficientStock` if the delta would drive on-hand below
zero and the draft is not an unchecked adjustment, and otherwise
(4) in one atomic unit, inserts the movement row (`CreateStockMovement`)
and applies the signed delta to the balance row (`UpsertStockBalance`,
creating the row with reserved = 0 on first movement). -/
def appendMovement (st : InventoryState) (d : MovementDraft) (now : Nat) :
    Except AppendError (StockMovement × InventoryState) :=
  if d.quantity ≤ 0 then
    .error .InvalidQuantity
  else
    match st.movements.find? (fun m => m.movement_number == d.movement_number) with
    | some orig => .error (.DuplicateMovement orig)
    | none =>
      if st.onHand d.product_id d.location_id + d.signedDelta < 0
          && !d.isUncheckedAdjustment then
        .error .InsufficientStock
      else
        let m := d.toMovement
        .ok (m,
          { movements := CreateStockMovement st.movements m
            balances := UpsertStockBalance st.balances d.product_id d.location_id
              d.signedDelta 0 now })

/-- The state after attempting an append: the new state on success, the
unchanged state on error (the transaction aborts; no partial write is
observable). -/
def applyAppend (st : InventoryState) (d : MovementDraft) (now : Nat) : InventoryState :=
  match appendMovement st d now with
  | .ok (_, st2) => st2
  | .error _ => st

/-- The state reached from the empty database by a sequence of append
requests (each paired with its wall-clock instant); rejected requests
leave the state unchanged. -/
def runAppends (ds : List (MovementDraft × Nat)) : InventoryState :=
  ds.foldl (fun st dn => applyAppend st dn.1 dn.2) InventoryState.initial

/-- The ledger fold of the spec's conservation invariant: the sum of
signed quantities of all movements of a (product, location) pair, in
order. -/
def sumSigned (ledger : List StockMovement) (p : ProductId) (l : LocationId) : Int :=
  (ledger.filter (fun m => m.product_id == p && m.location_id == l)).foldl
    (fun acc m => acc + m.signedQty) 0

/-- The `status VARCHAR(20) DEFAULT 'draft'` column of
`stock_adjustments`: 'draft' or 'confirmed'. -/
inductive AdjustmentStatus where
  | draft
  | confirmed
  deriving Repr, DecidableEq

/-- One row of the `stock_adjustments` header table. -/
structure StockAdjustment where
  adjustment_number : String
  location_id : LocationId
  adjustment_date : Nat
  reason : Option String
  status : AdjustmentStatus
  created_by : Option Nat
  deriving Repr, DecidableEq

/-- One row of `stock_adjustment_lines`.  `difference` is a generated
column (`GENERATED ALWAYS AS (quantity_after - quantity_before) STORED`)
and is modelled as a function; no UPDATE query against this table exists,
so rows are immutable once inserted. -/
structure StockAdjustmentLine where
  product_id : ProductId
  quantity_before : Int
  quantity_after : Int
  line_number : Nat
  notes : Option String
  deriving Repr, DecidableEq

/-- The generated column `difference DECIMAL(15,3) GENERATED ALWAYS AS
(quantity_after - quantity_before) STORED` of `stock_adjustment_lines`. -/
def StockAdjustmentLine.difference (ln : StockAdjustmentLine) : Int :=
  ln.quantity_after - ln.quantity_before

/-- Query `CreateStockAdjustmentLine` (sqlc, `:one`): INSERT of one line
row (`quantity_before` is the system value captured at line-creation
time, `quantity_after` the counted value); `RETURNING` includes the
generated `difference` column. -/
def CreateStockAdjustmentLine (lines : List StockAdjustmentLine)
    (p : ProductId) (qBefore qAfter : Int) (lineNo : Nat) (notes : Option String) :
    List StockAdjustmentLine × StockAdjustmentLine :=
  let ln : StockAdjustmentLine :=
    { product_id := p, quantity_before := qBefore, quantity_after := qAfter,
      line_number := lineNo, notes := notes }
  (lines ++ [ln], ln)

/-- Query `UpdateStockAdjustmentStatus` (sqlc, `:exec`):
`UPDATE stock_adjustments SET status = $2, updated_at = NOW()
WHERE id = $1` — the raw write, with no guard of its own. -/
def UpdateStockAdjustmentStatus (adj : StockAdjustment) (s : AdjustmentStatus) :
    StockAdjustment :=
  { adj with status := s }

/-- Error of re-confirming an already confirmed adjustment header. -/
inductive ConfirmError where
  | AlreadyConfirmed
  deriving Repr, DecidableEq

/-- The movement draft the Adjustment Reconciler emits for one line:
kind 'adjustment', signed delta = the line's difference (magnitude
`|difference|` with the sign flag), idempotency key derived from the line
identifier, marked unchecked (adjustments may bypass the stock floor). -/
def adjustmentDraft (adj : StockAdjustment) (ln : StockAdjustmentLine) (key : String) :
    MovementDraft :=
  { movement_number := key
    product_id := ln.product_id
    location_id := adj.location_id
    movement_type := .adjustment
    quantity := ln.difference.natAbs
    negative := decide (ln.difference < 0)
    unchecked := true
    reference_type := some "adjustment"
    reference_id := none
    movement_date := adj.adjustment_date
    notes := ln.notes
    created_by := adj.created_by }

/-- Modelled from the spec: the Adjustment Reconciler `confirm`
operation (§4.5); the Go service layer implementing it is not part of
the repository snapshot.  Re-confirming an already-confirmed header
fails with `AlreadyConfirmed` and changes nothing.  Otherwise, for every
line (each paired with its derived idempotency key, in line order), if
`difference ≠ 0` one ledger movement of kind 'adjustment' with signed
delta = difference is driven through the same `appendMovement` path (a
line with `difference = 0` emits nothing), and the header status is set
to 'confirmed' via `UpdateStockAdjustmentStatus`, all in one
transaction. -/
def confirmAdjustment (adj : StockAdjustment)
    (lines : List (StockAdjustmentLine × String)) (st : InventoryState) (now : Nat) :
    Except ConfirmError (StockAdjustment × InventoryState) :=
  if adj.status == .confirmed then
    .error .AlreadyConfirmed
  else
    let st2 := lines.foldl
      (fun s lk =>
        if lk.1.difference = 0 then s
        else applyAppend s (adjustmentDraft adj lk.1 lk.2) now)
      st
    .ok (UpdateStockAdjustmentStatus adj .confirmed, st2)

/-- One row of `purchase_order_lines`: the ordered `quantity`
(`CHECK (quantity > 0)`) and the cumulative `received_qty`
(`DEFAULT 0`). -/
structure POLine where
  quantity : Int
  received_qty : Int
  deriving Repr, DecidableEq

/-- Query `UpdatePOLineReceivedQty` (sqlc, `:exec`):
`UPDATE purchase_order_lines SET received_qty = received_qty + $2
WHERE id = $1` — the raw increment, with no bound check of its own. -/
def UpdatePOLineReceivedQty (line : POLine) (q : Int) : POLine :=
  { line with received_qty := line.received_qty + q }

/-- One row of `sales_order_lines`: the ordered `quantity`
(`CHECK (quantity > 0)`) and the cumulative `delivered_qty`
(`DEFAULT 0`). -/
structure SOLine where
  quantity : Int
  delivered_qty : Int
  deriving Repr, DecidableEq

/-- Query `UpdateSOLineDeliveredQty` (sqlc, `:exec`):
`UPDATE sales_order_lines SET delivered_qty = delivered_qty + $2
WHERE id = $1` — the raw increment, with no bound check of its own. -/
def UpdateSOLineDeliveredQty (line : SOLine) (q : Int) : SOLine :=
  { line with delivered_qty := line.delivered_qty + q }

/-- Errors of the Fulfillment Tracker (§4.4, §7): a receipt/delivery of
non-positive quantity is bad input; one that would push the cumulative
counter past the ordered quantity is `OverFulfillment`. -/
inductive FulfillError where
  | InvalidQuantity
  | OverFulfillment
  deriving Repr, DecidableEq

/-- Modelled from the spec: the Fulfillment Tracker `applyReceipt`
operation (§4.4); the Go service layer implementing it is not part of
the repository snapshot.  It verifies `fulfilled + qty ≤ ordered`
(rejecting with `OverFulfillment` otherwise, quantity ≤ 0 being rejected
as bad input before any write) and then increments the line's counter
via `UpdatePOLineReceivedQty`. -/
def applyReceipt (line : POLine) (qty : Int) : Except FulfillError POLine :=
  if qty ≤ 0 then .error .InvalidQuantity
  else if line.quantity < line.received_qty + qty then .error .OverFulfillment
  else .ok (UpdatePOLineReceivedQty line qty)

/-- Modelled from the spec: the Fulfillment Tracker `applyDelivery`
operation (§4.4); the Go service layer implementing it is not part of
the repository snapshot.  It verifies `fulfilled + qty ≤ ordered`
(rejecting with `OverFulfillment` otherwise, quantity ≤ 0 being rejected
as bad input before any write) and then increments the line's counter
via `UpdateSOLineDeliveredQty`. -/
def applyDelivery (line : SOLine) (qty : Int) : Except FulfillError SOLine :=
  if qty ≤ 0 then .error .InvalidQuantity
  else if line.quantity < line.delivered_qty + qty then .error .OverFulfillment
  else .ok (UpdateSOLineDeliveredQty line qty)

/-- The purchase-order line after a sequence of receipt requests;
rejected requests leave the line unchanged. -/
def runReceipts (line : POLine) (qs : List Int) : POLine :=
  qs.foldl (fun ln q =>
    match applyReceipt ln q with
    | .ok ln2 => ln2
    | .error _ => ln) line

/-- The sales-order line after a sequence of delivery requests; rejected
requests leave the line unchanged. -/
def runDeliveries (line : SOLine) (qs : List Int) : SOLine :=
  qs.foldl (fun ln q =>
    match applyDelivery ln q with
    | .ok ln2 => ln2
    | .error _ => ln) line

/-! ## Helper lemmas -/

theorem keyIs_true_iff (b : StockBalance) (p : ProductId) (l : LocationId) :
    b.keyIs p l = true ↔ (b.product_id = p ∧ b.location_id = l) := by
  simp [StockBalance.keyIs]

theorem find?_eq_none_of_any_false {α : Type} (p : α → Bool) (l : List α)
    (h : l.any p = false) : l.find? p = none := by
  rw [List.find?_eq_none]
  intro x hx hp
  have := List.any_eq_false.mp h x hx
  simp [hp] at this

theorem find?_map_of_pred_comm {α : Type} (f : α → α) (p : α → Bool) (l : List α)
    (hf : ∀ a, p (f a) = p a) :
    (l.map f).find? p = (l.find? p).map f := by
  induction l with
  | nil => rfl
  | cons a t ih =>
    simp only [List.map_cons, List.find?_cons, hf a]
    cases hpa : p a <;> simp [ih]

theorem keyIs_of_update (b : StockBalance) (q : Int) (now : Nat)
    (p' : ProductId) (l' : LocationId) :
    StockBalance.keyIs { b with quantity := q, last_updated := now } p' l' =
      b.keyIs p' l' := rfl

theorem upsert_map_pred_comm (p : ProductId) (l : LocationId) (q : Int) (now : Nat)
    (p' : ProductId) (l' : LocationId) :
    ∀ a : StockBalance,
      StockBalance.keyIs
        (if a.keyIs p l then
          { a with quantity := a.quantity + q, last_updated := now }
        else a) p' l' = a.keyIs p' l' := by
  intro a
  by_cases ha : a.keyIs p l = true
  · rw [if_pos ha, keyIs_of_update]
  · rw [if_neg ha]

theorem find?_eq_of_pairwise_keys (rows : BalanceTable) (p : ProductId) (l : LocationId)
    (hWF : BalanceTable.WF rows) (b : StockBalance) (hb : b ∈ rows)
    (hkey : b.keyIs p l = true) :
    rows.find? (fun x => x.keyIs p l) = some b := by
  induction rows with
  | nil => cases hb
  | cons a t ih =>
    unfold BalanceTable.WF at hWF
    rw [List.pairwise_cons] at hWF
    rcases List.mem_cons.mp hb with rfl | hbt
    · rw [List.find?_cons, hkey]
    · have hka : a.keyIs p l = false := by
        by_contra hcon
        rw [Bool.not_eq_false, keyIs_true_iff] at hcon
        rw [keyIs_true_iff] at hkey
        exact hWF.1 b hbt ⟨hcon.1.trans hkey.1.symm, hcon.2.trans hkey.2.symm⟩
      rw [List.find?_cons, hka]
      exact ih hWF.2 hbt

theorem getStockBalance_upsert_some (rows : BalanceTable) (p : ProductId)
    (l : LocationId) (q r : Int) (now : Nat) (b : StockBalance)
    (hb : GetStockBalance rows p l = some b) :
    GetStockBalance (UpsertStockBalance rows p l q r now) p l =
      some { b with quantity := b.quantity + q, last_updated := now } := by
  unfold GetStockBalance at hb
  have hmem : b ∈ rows := List.mem_of_find?_eq_some hb
  have hkey0 := List.find?_some hb
  have hkey : b.keyIs p l = true := hkey0
  have hany : rows.any (fun x => x.keyIs p l) = true :=
    List.any_eq_true.mpr ⟨b, hmem, hkey⟩
  unfold UpsertStockBalance GetStockBalance
  rw [if_pos hany,
    find?_map_of_pred_comm _ _ _ (upsert_map_pred_comm p l q now p l), hb,
    Option.map_some']
  simp [hkey]

theorem getStockBalance_upsert_none (rows : BalanceTable) (p : ProductId)
    (l : LocationId) (q r : Int) (now : Nat)
    (hb : GetStockBalance rows p l = none) :
    GetStockBalance (UpsertStockBalance rows p l q r now) p l =
      some ⟨p, l, q, r, now⟩ := by
  unfold GetStockBalance at hb
  have hany : rows.any (fun x => x.keyIs p l) = false := by
    by_contra hcon
    rw [Bool.not_eq_false, List.any_eq_true] at hcon
    obtain ⟨x, hx, hpx⟩ := hcon
    have := List.find?_eq_none.mp hb x hx
    simp [hpx] at this
  unfold UpsertStockBalance GetStockBalance
  rw [if_neg (by simp [hany]), List.find?_append, hb, Option.none_or,
    List.find?_cons]
  have : StockBalance.keyIs ⟨p, l, q, r, now⟩ p l = true := by
    rw [keyIs_true_iff]
    exact ⟨rfl, rfl⟩
  rw [this]

theorem getStockBalance_upsert_other (rows : BalanceTable) (p : ProductId)
    (l : LocationId) (q r : Int) (now : Nat) (p' : ProductId) (l' : LocationId)
    (hne : ¬(p' = p ∧ l' = l)) :
    GetStockBalance (UpsertStockBalance rows p l q r now) p' l' =
      GetStockBalance rows p' l' := by
  unfold UpsertStockBalance GetStockBalance
  by_cases hany : rows.any (fun x => x.keyIs p l) = true
  · rw [if_pos hany,
      find?_map_of_pred_comm _ _ _ (upsert_map_pred_comm p l q now p' l')]
    cases hfind : rows.find? (fun x => x.keyIs p' l') with
    | none => rfl
    | some b =>
      have hkey0 := List.find?_some hfind
      have hkey' : b.keyIs p' l' = true := hkey0
      have hkey : b.keyIs p l = false := by
        by_contra hcon
        rw [Bool.not_eq_false, keyIs_true_iff] at hcon
        rw [keyIs_true_iff] at hkey'
        exact hne ⟨hkey'.1.symm.trans hcon.1, hkey'.2.symm.trans hcon.2⟩
      rw [Option.map_some']
      simp [hkey]
  · rw [if_neg hany, List.find?_append]
    have hnew : StockBalance.keyIs ⟨p, l, q, r, now⟩ p' l' = false := by
      rw [Bool.eq_false_iff]
      intro hcon
      rw [keyIs_true_iff] at hcon
      exact hne ⟨hcon.1.symm, hcon.2.symm⟩
    cases hfind : rows.find? (fun x => x.keyIs p' l') with
    | none => rw [Option.none_or, List.find?_cons, hnew, List.find?_nil]
    | some b => rfl

theorem sumSigned_foldl_shift (ms : List StockMovement) (a : Int) :
    ms.foldl (fun acc m => acc + m.signedQty) a =
      a + ms.foldl (fun acc m => acc + m.signedQty) 0 := by
  induction ms generalizing a with
  | nil => simp
  | cons m t ih =>
    simp only [List.foldl_cons]
    rw [ih (a + m.signedQty), ih (0 + m.signedQty)]
    ring

theorem sumSigned_append_singleton (ledger : List StockMovement) (m : StockMovement)
    (p : ProductId) (l : LocationId) :
    sumSigned (ledger ++ [m]) p l =
      sumSigned ledger p l +
        (if m.product_id = p ∧ m.location_id = l then m.signedQty else 0) := by
  unfold sumSigned
  rw [List.filter_append, List.foldl_append]
  by_cases hm : m.product_id = p ∧ m.location_id = l
  · rw [if_pos hm]
    have : (List.filter (fun x => x.product_id == p && x.location_id == l) [m]) = [m] := by
      simp [List.filter, hm.1, hm.2]
    rw [this, List.foldl_cons, List.foldl_nil, sumSigned_foldl_shift]
  · rw [if_neg hm]
    have hf : (m.product_id == p && m.location_id == l) = false := by
      rw [Bool.eq_false_iff]
      intro hcon
      rw [Bool.and_eq_true] at hcon
      exact hm ⟨by simpa using hcon.1, by simpa using hcon.2⟩
    have : (List.filter (fun x => x.product_id == p && x.location_id == l) [m]) = [] := by
      simp [List.filter, hf]
    rw [this, List.foldl_nil]
    ring

theorem signedQty_toMovement (d : MovementDraft) :
    d.toMovement.signedQty = d.signedDelta := by
  cases h : d.movement_type <;>
    simp [MovementDraft.toMovement, StockMovement.signedQty, MovementDraft.storedQty,
      MovementDraft.signedDelta, h]

theorem appendMovement_ok_elim (st : InventoryState) (d : MovementDraft) (now : Nat)
    (m : StockMovement) (st2 : InventoryState)
    (h : appendMovement st d now = .ok (m, st2)) :
    0 < d.quantity
    ∧ st.movements.find? (fun mv => mv.movement_number == d.movement_number) = none
    ∧ (st.onHand d.product_id d.location_id + d.signedDelta < 0 →
        d.isUncheckedAdjustment = true)
    ∧ m = d.toMovement
    ∧ st2 = { movements := st.movements ++ [d.toMovement],
              balances := UpsertStockBalance st.balances d.product_id d.location_id
                d.signedDelta 0 now } := by
  unfold appendMovement at h
  split at h
  · exact Except.noConfusion h
  next h1 =>
    split at h
    · exact Except.noConfusion h
    next hfind =>
      split at h
      · exact Except.noConfusion h
      next h2 =>
        have hq : 0 < d.quantity := lt_of_not_le h1
        have hfloor : st.onHand d.product_id d.location_id + d.signedDelta < 0 →
            d.isUncheckedAdjustment = true := by
          intro hA
          by_contra hu
          apply h2
          rw [Bool.and_eq_true]
          refine ⟨decide_eq_true hA, ?_⟩
          rw [Bool.eq_false_iff.mpr hu]
          rfl
        simp only [CreateStockMovement, Except.ok.injEq, Prod.mk.injEq] at h
        obtain ⟨hm, hst⟩ := h
        exact ⟨hq, hfind, hfloor, hm.symm, hst.symm⟩

theorem toMovement_product (d : MovementDraft) :
    d.toMovement.product_id = d.product_id := rfl

theorem toMovement_location (d : MovementDraft) :
    d.toMovement.location_id = d.location_id := rfl

theorem applyAppend_conservation (st : InventoryState) (d : MovementDraft) (now : Nat)
    (hInv : ∀ p l, st.onHand p l = sumSigned st.movements p l) :
    ∀ p l, (applyAppend st d now).onHand p l =
      sumSigned (applyAppend st d now).movements p l := by
  intro p l
  unfold applyAppend
  cases happ : appendMovement st d now with
  | error e => exact hInv p l
  | ok res =>
    obtain ⟨m, st2⟩ := res
    obtain ⟨hq, hfind, hfloor, hm, hst⟩ := appendMovement_ok_elim st d now m st2 happ
    subst hst
    dsimp only
    rw [sumSigned_append_singleton]
    by_cases hpl : d.toMovement.product_id = p ∧ d.toMovement.location_id = l
    · rw [if_pos hpl]
      obtain ⟨hp0, hl0⟩ := hpl
      have hp : d.product_id = p := hp0
      have hl : d.location_id = l := hl0
      subst hp
      subst hl
      rw [signedQty_toMovement]
      unfold InventoryState.onHand
      dsimp only
      cases hget : GetStockBalance st.balances d.product_id d.location_id with
      | some b =>
        rw [getStockBalance_upsert_some st.balances _ _ _ 0 now b hget]
        have hv := hInv d.product_id d.location_id
        unfold InventoryState.onHand at hv
        rw [hget] at hv
        dsimp only at hv ⊢
        rw [← hv]
      | none =>
        rw [getStockBalance_upsert_none st.balances _ _ _ 0 now hget]
        have hv := hInv d.product_id d.location_id
        unfold InventoryState.onHand at hv
        rw [hget] at hv
        dsimp only at hv ⊢
        rw [← hv]
        omega
    · rw [if_neg hpl]
      have hne : ¬(p = d.product_id ∧ l = d.location_id) := by
        intro hcon
        exact hpl ⟨hcon.1.symm, hcon.2.symm⟩
      unfold InventoryState.onHand
      dsimp only
      rw [getStockBalance_upsert_other st.balances d.product_id d.location_id _ 0 now p l hne]
      have hv := hInv p l
      unfold InventoryState.onHand at hv
      rw [hv]
      omega

theorem upsert_update_product (p : ProductId) (l : LocationId) (q : Int) (now : Nat)
    (a : StockBalance) :
    (if a.keyIs p l then
      { a with quantity := a.quantity + q, last_updated := now }
    else a).product_id = a.product_id := by
  by_cases ha : a.keyIs p l = true
  · rw [if_pos ha]
  · rw [if_neg ha]

theorem upsert_update_location (p : ProductId) (l : LocationId) (q : Int) (now : Nat)
    (a : StockBalance) :
    (if a.keyIs p l then
      { a with quantity := a.quantity + q, last_updated := now }
    else a).location_id = a.location_id := by
  by_cases ha : a.keyIs p l = true
  · rw [if_pos ha]
  · rw [if_neg ha]

theorem upsert_WF (rows : BalanceTable) (p : ProductId) (l : LocationId)
    (q r : Int) (now : Nat) (h : BalanceTable.WF rows) :
    BalanceTable.WF (UpsertStockBalance rows p l q r now) := by
  unfold UpsertStockBalance
  by_cases hany : rows.any (fun b => b.keyIs p l) = true
  · rw [if_pos hany]
    unfold BalanceTable.WF at h ⊢
    refine List.Pairwise.map _ (fun a b hab => ?_) h
    intro hcon
    rw [upsert_update_product, upsert_update_product, upsert_update_location,
      upsert_update_location] at hcon
    exact hab hcon
  · rw [if_neg hany]
    unfold BalanceTable.WF at h ⊢
    rw [List.pairwise_append]
    refine ⟨h, List.pairwise_singleton _ _, ?_⟩
    intro a ha b hb
    rw [List.mem_singleton] at hb
    subst hb
    intro hcon
    have hfa := List.any_eq_false.mp (Bool.eq_false_iff.mpr hany) a ha
    exact hfa ((keyIs_true_iff a p l).mpr ⟨hcon.1, hcon.2⟩)

theorem applyAppend_rows_ok (st : InventoryState) (d : MovementDraft) (now : Nat)
    (hu : d.isUncheckedAdjustment = false)
    (hWF : BalanceTable.WF st.balances)
    (hrows : ∀ b ∈ st.balances, b.reserved_qty = 0 ∧ 0 ≤ b.quantity) :
    BalanceTable.WF (applyAppend st d now).balances
    ∧ ∀ b ∈ (applyAppend st d now).balances, b.reserved_qty = 0 ∧ 0 ≤ b.quantity := by
  unfold applyAppend
  cases happ : appendMovement st d now with
  | error e => exact ⟨hWF, hrows⟩
  | ok res =>
    obtain ⟨m, st2⟩ := res
    obtain ⟨hq, hfind, hfloor, hm, hst⟩ := appendMovement_ok_elim st d now m st2 happ
    subst hst
    dsimp only
    have hfloor2 : 0 ≤ st.onHand d.product_id d.location_id + d.signedDelta := by
      by_contra hcon
      push_neg at hcon
      have := hfloor hcon
      rw [hu] at this
      exact Bool.noConfusion this
    refine ⟨upsert_WF st.balances _ _ _ 0 now hWF, ?_⟩
    intro b hb
    unfold UpsertStockBalance at hb
    by_cases hany : st.balances.any (fun x => x.keyIs d.product_id d.location_id) = true
    · rw [if_pos hany] at hb
      obtain ⟨a, ha, hfa⟩ := List.mem_map.mp hb
      by_cases hka : a.keyIs d.product_id d.location_id = true
      · rw [if_pos hka] at hfa
        subst hfa
        have hget : GetStockBalance st.balances d.product_id d.location_id = some a :=
          find?_eq_of_pairwise_keys st.balances _ _ hWF a ha hka
        have honh : st.onHand d.product_id d.location_id = a.quantity := by
          unfold InventoryState.onHand
          rw [hget]
        refine ⟨(hrows a ha).1, ?_⟩
        have := (hrows a ha).2
        dsimp only
        rw [honh] at hfloor2
        omega
      · rw [if_neg hka] at hfa
        subst hfa
        exact hrows a ha
    · rw [if_neg hany] at hb
      rcases List.mem_append.mp hb with hmem | hnew
      · exact hrows b hmem
      · rw [List.mem_singleton] at hnew
        subst hnew
        have hget : GetStockBalance st.balances d.product_id d.location_id = none := by
          unfold GetStockBalance
          exact find?_eq_none_of_any_false _ _ (Bool.eq_false_iff.mpr hany)
        have honh : st.onHand d.product_id d.location_id = 0 := by
          unfold InventoryState.onHand
          rw [hget]
        rw [honh] at hfloor2
        exact ⟨rfl, by dsimp only; omega⟩

theorem appendMovement_ok_onHand (st : InventoryState) (d : MovementDraft) (now : Nat)
    (m : StockMovement) (st2 : InventoryState)
    (h : appendMovement st d now = .ok (m, st2)) :
    st2.onHand d.product_id d.location_id =
      st.onHand d.product_id d.location_id + d.signedDelta := by
  obtain ⟨hq, hfind, hfloor, hm, hst⟩ := appendMovement_ok_elim st d now m st2 h
  subst hst
  unfold InventoryState.onHand
  dsimp only
  cases hget : GetStockBalance st.balances d.product_id d.location_id with
  | some b =>
    rw [getStockBalance_upsert_some _ _ _ _ 0 now b hget]
  | none =>
    rw [getStockBalance_upsert_none _ _ _ _ 0 now hget]
    dsimp only
    omega

theorem adjustmentDraft_signedDelta (adj : StockAdjustment)
    (ln : StockAdjustmentLine) (k : String) :
    (adjustmentDraft adj ln k).signedDelta = ln.difference := by
  unfold adjustmentDraft MovementDraft.signedDelta
  dsimp only
  by_cases hneg : ln.difference < 0
  · rw [if_pos (decide_eq_true hneg)]
    omega
  · rw [if_neg (by simp [hneg])]
    omega

theorem adjustmentDraft_quantity_pos (adj : StockAdjustment)
    (ln : StockAdjustmentLine) (k : String) (h : ln.difference ≠ 0) :
    0 < (adjustmentDraft adj ln k).quantity := by
  unfold adjustmentDraft
  dsimp only
  omega

theorem adjustmentDraft_unchecked (adj : StockAdjustment)
    (ln : StockAdjustmentLine) (k : String) :
    (adjustmentDraft adj ln k).isUncheckedAdjustment = true := rfl

theorem appendMovement_adjustment_ok (st : InventoryState) (adj : StockAdjustment)
    (ln : StockAdjustmentLine) (k : String) (now : Nat)
    (hdiff : ln.difference ≠ 0)
    (hfresh : ∀ m ∈ st.movements, m.movement_number ≠ k) :
    appendMovement st (adjustmentDraft adj ln k) now =
      .ok ((adjustmentDraft adj ln k).toMovement,
        { movements := st.movements ++ [(adjustmentDraft adj ln k).toMovement],
          balances := UpsertStockBalance st.balances ln.product_id adj.location_id
            (adjustmentDraft adj ln k).signedDelta 0 now }) := by
  unfold appendMovement
  rw [if_neg (not_le.mpr (adjustmentDraft_quantity_pos adj ln k hdiff))]
  have hfind : st.movements.find?
      (fun mv => mv.movement_number == (adjustmentDraft adj ln k).movement_number) =
      none := by
    rw [List.find?_eq_none]
    intro m hm
    have := hfresh m hm
    simp [adjustmentDraft, this]
  rw [hfind]
  rw [if_neg (by rw [adjustmentDraft_unchecked]; simp)]
  rfl

theorem confirm_fold_movements (adj : StockAdjustment) (now : Nat) :
    ∀ (lks : List (StockAdjustmentLine × String)) (st : InventoryState),
    (∀ lk ∈ lks, ∀ m ∈ st.movements, m.movement_number ≠ lk.2) →
    lks.Pairwise (fun a b => a.2 ≠ b.2) →
    (lks.foldl (fun s lk =>
        if lk.1.difference = 0 then s
        else applyAppend s (adjustmentDraft adj lk.1 lk.2) now) st).movements =
      st.movements ++
        (lks.filter (fun lk => !(lk.1.difference == 0))).map
          (fun lk => (adjustmentDraft adj lk.1 lk.2).toMovement) := by
  intro lks
  induction lks with
  | nil => intro st _ _; simp
  | cons lk t ih =>
    intro st hfresh hpw
    rw [List.pairwise_cons] at hpw
    rw [List.foldl_cons]
    by_cases hd0 : lk.1.difference = 0
    · rw [if_pos hd0]
      have hfilter : (lk :: t).filter (fun x => !(x.1.difference == 0)) =
          t.filter (fun x => !(x.1.difference == 0)) := by
        rw [List.filter_cons]
        rw [if_neg (by simp [hd0])]
      rw [hfilter]
      exact ih st (fun x hx => hfresh x (List.mem_cons_of_mem lk hx)) hpw.2
    · rw [if_neg hd0]
      have hap := appendMovement_adjustment_ok st adj lk.1 lk.2 now hd0
        (hfresh lk (List.mem_cons_self lk t))
      have hstep : applyAppend st (adjustmentDraft adj lk.1 lk.2) now =
          { movements := st.movements ++ [(adjustmentDraft adj lk.1 lk.2).toMovement],
            balances := UpsertStockBalance st.balances lk.1.product_id adj.location_id
              (adjustmentDraft adj lk.1 lk.2).signedDelta 0 now } := by
        unfold applyAppend
        rw [hap]
      rw [hstep]
      have hfresh2 : ∀ x ∈ t, ∀ m ∈
          st.movements ++ [(adjustmentDraft adj lk.1 lk.2).toMovement],
          m.movement_number ≠ x.2 := by
        intro x hx m hm
        rcases List.mem_append.mp hm with hm1 | hm2
        · exact hfresh x (List.mem_cons_of_mem lk hx) m hm1
        · rw [List.mem_singleton] at hm2
          subst hm2
          have : (adjustmentDraft adj lk.1 lk.2).toMovement.movement_number = lk.2 := rfl
          rw [this]
          exact hpw.1 x hx
      rw [ih _ hfresh2 hpw.2]
      have hfilter : (lk :: t).filter (fun x => !(x.1.difference == 0)) =
          lk :: t.filter (fun x => !(x.1.difference == 0)) := by
        rw [List.filter_cons]
        rw [if_pos (by simp [hd0])]
      rw [hfilter, List.map_cons]
      dsimp only
      rw [List.append_assoc]
      rfl

/-! ## Theorems -/

/-- C1: for every (product, location) pair and every sequence of append
requests starting from the empty database, folding the accepted movements
of that pair by signed quantity (positive for kind 'in', negative for
'out', the stored signed value for 'adjustment') yields exactly the
on-hand quantity of that pair's `stock_balances` row: each accepted
append inserts its movement and increments the balance in the same
atomic unit, preserving `balance.on_hand = sum(signed quantities)`. -/
theorem ledger_balance_conservation :
    ∀ (ds : List (MovementDraft × Nat)) (p : ProductId) (l : LocationId),
    (runAppends ds).onHand p l = sumSigned (runAppends ds).movements p l := by
  have main : ∀ (ds : List (MovementDraft × Nat)) (st : InventoryState),
      (∀ p l, st.onHand p l = sumSigned st.movements p l) →
      ∀ p l, (ds.foldl (fun s dn => applyAppend s dn.1 dn.2) st).onHand p l =
        sumSigned (ds.foldl (fun s dn => applyAppend s dn.1 dn.2) st).movements p l := by
    intro ds
    induction ds with
    | nil => intro st h; exact h
    | cons dn t ih =>
      intro st h
      exact ih (applyAppend st dn.1 dn.2) (applyAppend_conservation st dn.1 dn.2 h)
  intro ds p l
  exact main ds InventoryState.initial (fun _ _ => rfl) p l

/-- C10: in `ListStockBalances`, the filter `($3::boolean IS NULL OR
(sb.quantity > 0) = $3)` with `$3 = true` keeps exactly the rows with
quantity > 0; with `$3 = false` it keeps exactly the rows with
quantity ≤ 0 (positive rows are excluded); only a NULL filter keeps
every row. -/
theorem listStockBalances_nonZeroOnly_spec :
    ∀ (rows : BalanceTable) (pf : Option ProductId) (lf : Option LocationId)
      (b : StockBalance),
    (b ∈ ListStockBalances rows pf lf (some true) ↔
      b ∈ ListStockBalances rows pf lf none ∧ 0 < b.quantity)
    ∧ (b ∈ ListStockBalances rows pf lf (some false) ↔
      b ∈ ListStockBalances rows pf lf none ∧ b.quantity ≤ 0)
    ∧ ListStockBalances rows none none none = rows := by
  intro rows pf lf b
  refine ⟨?_, ?_, ?_⟩
  · simp only [ListStockBalances, List.mem_filter, Bool.and_eq_true, beq_iff_eq,
      decide_eq_true_eq, Bool.and_true]
    tauto
  · simp only [ListStockBalances, List.mem_filter, Bool.and_eq_true, beq_iff_eq,
      decide_eq_false_iff_not, not_lt, Bool.and_true]
    tauto
  · simp [ListStockBalances]

/-- C9: `UpsertStockBalance` on a table already holding the
(product, location) row rewrites only `quantity` (by the increment) and
`last_updated`; the `reserved_qty` argument is ignored on conflict, and
it is stored only when the row is first created. -/
theorem upsertStockBalance_conflict_frame :
    ∀ (rows : BalanceTable) (p : ProductId) (l : LocationId) (q r r' : Int) (now : Nat),
    (rows.any (fun b => b.keyIs p l) = true →
      UpsertStockBalance rows p l q r now =
        rows.map (fun b =>
          if b.keyIs p l then
            { b with quantity := b.quantity + q, last_updated := now }
          else b)
      ∧ UpsertStockBalance rows p l q r now = UpsertStockBalance rows p l q r' now)
    ∧ (rows.any (fun b => b.keyIs p l) = false →
      UpsertStockBalance rows p l q r now =
        rows ++ [{ product_id := p, location_id := l, quantity := q,
                   reserved_qty := r, last_updated := now }]) := by
  intro rows p l q r r' now
  constructor
  · intro h
    constructor
    · simp [UpsertStockBalance, h]
    · simp [UpsertStockBalance, h]
  · intro h
    simp [UpsertStockBalance, h]

/-- C9 witness: a concrete table holding the (1, 2) row; upserting with
reserved argument 9 leaves the stored `reserved_qty` 4 untouched and only
adds 5 to `quantity` (and refreshes `last_updated`). -/
theorem upsertStockBalance_conflict_frame_witness :
    UpsertStockBalance [⟨1, 2, 10, 4, 0⟩] 1 2 5 9 7 =
      [⟨1, 2, 15, 4, 7⟩] := by
  have h := (upsertStockBalance_conflict_frame [⟨1, 2, 10, 4, 0⟩] 1 2 5 9 9 7).1
    (by decide)
  rw [h.1]
  decide

/-- C6: a movement draft with quantity ≤ 0 is rejected with
`InvalidQuantity` before any write: no movement row is inserted and no
balance row changes (the attempted append leaves the state equal to the
prior state). -/
theorem appendMovement_invalid_quantity :
    ∀ (st : InventoryState) (d : MovementDraft) (now : Nat),
    d.quantity ≤ 0 →
    appendMovement st d now = .error .InvalidQuantity
    ∧ applyAppend st d now = st := by
  intro st d now h
  have he : appendMovement st d now = .error .InvalidQuantity := by
    simp [appendMovement, h]
  exact ⟨he, by simp [applyAppend, he]⟩

/-- C6 witness: a concrete zero-quantity draft against the empty state is
rejected with `InvalidQuantity` and the state is unchanged. -/
theorem appendMovement_invalid_quantity_witness :
    appendMovement InventoryState.initial
      ⟨"MV-1", 1, 1, .in_, 0, false, false, none, none, 0, none, none⟩ 0 =
      .error .InvalidQuantity
    ∧ applyAppend InventoryState.initial
      ⟨"MV-1", 1, 1, .in_, 0, false, false, none, none, 0, none, none⟩ 0 =
      InventoryState.initial :=
  appendMovement_invalid_quantity InventoryState.initial
    ⟨"MV-1", 1, 1, .in_, 0, false, false, none, none, 0, none, none⟩ 0 (by decide)

/-- C7: confirming a stock adjustment whose header status is already
'confirmed' fails with `AlreadyConfirmed`; the error return means the
transaction aborts, so neither the header nor the inventory state is
written.  The only successful transition `confirmAdjustment` performs is
draft → confirmed. -/
theorem confirmAdjustment_already_confirmed :
    ∀ (adj : StockAdjustment) (lines : List (StockAdjustmentLine × String))
      (st : InventoryState) (now : Nat),
    adj.status = .confirmed →
    confirmAdjustment adj lines st now = .error .AlreadyConfirmed
    ∧ ∀ (adj2 : StockAdjustment) (st2 : InventoryState),
        confirmAdjustment adj lines st now = .ok (adj2, st2) →
        False := by
  intro adj lines st now h
  have he : confirmAdjustment adj lines st now = .error .AlreadyConfirmed := by
    simp [confirmAdjustment, h]
  exact ⟨he, by intro adj2 st2 hok; rw [he] at hok; exact Except.noConfusion hok⟩

/-- C7 witness: re-confirming a concrete already-confirmed header fails
with `AlreadyConfirmed`. -/
theorem confirmAdjustment_already_confirmed_witness :
    confirmAdjustment
      ⟨"ADJ-1", 1, 0, none, .confirmed, none⟩ [] InventoryState.initial 0 =
      .error .AlreadyConfirmed :=
  (confirmAdjustment_already_confirmed
    ⟨"ADJ-1", 1, 0, none, .confirmed, none⟩ [] InventoryState.initial 0 rfl).1

/-- Bounds on a purchase-order line are preserved by any sequence of
receipt requests: the fulfilled counter stays within [0, ordered] and
the ordered quantity itself never changes. -/
theorem runReceipts_bounds :
    ∀ (qs : List Int) (po : POLine),
    0 ≤ po.received_qty → po.received_qty ≤ po.quantity →
    0 ≤ (runReceipts po qs).received_qty
    ∧ (runReceipts po qs).received_qty ≤ (runReceipts po qs).quantity
    ∧ (runReceipts po qs).quantity = po.quantity := by
  intro qs
  induction qs with
  | nil => intro po h0 h1; exact ⟨h0, h1, rfl⟩
  | cons q qs ih =>
    intro po h0 h1
    show 0 ≤ (runReceipts _ qs).received_qty ∧ _
    by_cases hq : q ≤ 0
    · simpa [runReceipts, applyReceipt, hq] using ih po h0 h1
    · by_cases hov : po.quantity < po.received_qty + q
      · simpa [runReceipts, applyReceipt, hq, hov] using ih po h0 h1
      · have hq0 : (0 : Int) ≤ q := le_of_lt (lt_of_not_le hq)
        have := ih (UpdatePOLineReceivedQty po q)
          (by simpa [UpdatePOLineReceivedQty] using add_nonneg h0 hq0)
          (by simpa [UpdatePOLineReceivedQty] using le_of_not_lt hov)
        simpa [runReceipts, applyReceipt, hq, hov, UpdatePOLineReceivedQty] using this

/-- Bounds on a sales-order line are preserved by any sequence of
delivery requests: the fulfilled counter stays within [0, ordered] and
the ordered quantity itself never changes. -/
theorem runDeliveries_bounds :
    ∀ (qs : List Int) (so : SOLine),
    0 ≤ so.delivered_qty → so.delivered_qty ≤ so.quantity →
    0 ≤ (runDeliveries so qs).delivered_qty
    ∧ (runDeliveries so qs).delivered_qty ≤ (runDeliveries so qs).quantity
    ∧ (runDeliveries so qs).quantity = so.quantity := by
  intro qs
  induction qs with
  | nil => intro so h0 h1; exact ⟨h0, h1, rfl⟩
  | cons q qs ih =>
    intro so h0 h1
    show 0 ≤ (runDeliveries _ qs).delivered_qty ∧ _
    by_cases hq : q ≤ 0
    · simpa [runDeliveries, applyDelivery, hq] using ih so h0 h1
    · by_cases hov : so.quantity < so.delivered_qty + q
      · simpa [runDeliveries, applyDelivery, hq, hov] using ih so h0 h1
      · have hq0 : (0 : Int) ≤ q := le_of_lt (lt_of_not_le hq)
        have := ih (UpdateSOLineDeliveredQty so q)
          (by simpa [UpdateSOLineDeliveredQty] using add_nonneg h0 hq0)
          (by simpa [UpdateSOLineDeliveredQty] using le_of_not_lt hov)
        simpa [runDeliveries, applyDelivery, hq, hov, UpdateSOLineDeliveredQty] using this

/-- C3: starting from a freshly created order line (counter `DEFAULT 0`,
ordered quantity with `CHECK (quantity > 0)`), after any sequence of
`applyReceipt` / `applyDelivery` calls the cumulative fulfilled counter
satisfies 0 ≤ fulfilled ≤ ordered; and a single call with
fulfilled + qty > ordered (and positive qty, non-positive qty being
rejected as bad input even earlier) fails with `OverFulfillment` and, the
transaction aborting, leaves the counter unchanged. -/
theorem fulfillment_counter_bounds :
    ∀ (ordered : Int) (qs qs' : List Int),
    0 < ordered →
    (0 ≤ (runReceipts ⟨ordered, 0⟩ qs).received_qty
      ∧ (runReceipts ⟨ordered, 0⟩ qs).received_qty ≤ ordered
      ∧ 0 ≤ (runDeliveries ⟨ordered, 0⟩ qs').delivered_qty
      ∧ (runDeliveries ⟨ordered, 0⟩ qs').delivered_qty ≤ ordered)
    ∧ (∀ (po : POLine) (q : Int), 0 < q → po.quantity < po.received_qty + q →
        applyReceipt po q = .error .OverFulfillment)
    ∧ (∀ (so : SOLine) (q : Int), 0 < q → so.quantity < so.delivered_qty + q →
        applyDelivery so q = .error .OverFulfillment) := by
  intro ordered qs qs' h
  refine ⟨?_, ?_, ?_⟩
  · have hr := runReceipts_bounds qs ⟨ordered, 0⟩ le_rfl (le_of_lt h)
    have hd := runDeliveries_bounds qs' ⟨ordered, 0⟩ le_rfl (le_of_lt h)
    refine ⟨hr.1, ?_, hd.1, ?_⟩
    · have := hr.2.1
      rw [hr.2.2] at this
      exact this
    · have := hd.2.1
      rw [hd.2.2] at this
      exact this
  · intro po q hq hov
    simp [applyReceipt, not_le.mpr hq, hov]
  · intro so q hq hov
    simp [applyDelivery, not_le.mpr hq, hov]

/-- C3 witness: on a line ordering 10 units, receipts/deliveries of
4, 5 and 6 accumulate to 9 (the 6 is rejected as over-fulfillment),
within [0, 10]; a direct attempt on a full counter fails with
`OverFulfillment`. -/
theorem fulfillment_counter_bounds_witness :
    (0 ≤ (runReceipts ⟨10, 0⟩ [4, 5, 6]).received_qty
      ∧ (runReceipts ⟨10, 0⟩ [4, 5, 6]).received_qty ≤ 10
      ∧ 0 ≤ (runDeliveries ⟨10, 0⟩ [4, 5, 6]).delivered_qty
      ∧ (runDeliveries ⟨10, 0⟩ [4, 5, 6]).delivered_qty ≤ 10)
    ∧ applyReceipt ⟨10, 9⟩ 6 = .error .OverFulfillment :=
  ⟨(fulfillment_counter_bounds 10 [4, 5, 6] [4, 5, 6] (by decide)).1,
   (fulfillment_counter_bounds 10 [4, 5, 6] [4, 5, 6] (by decide)).2.1
     ⟨10, 9⟩ 6 (by decide) (by decide)⟩

/-- C4: appending a movement whose idempotency key (`movement_number`,
UNIQUE in `stock_movements`) has already been committed fails with
`DuplicateMovement` carrying the originally committed movement, and the
aborted transaction performs no second ledger or balance write: appending
the same draft twice leaves the state equal to the state after one
append. -/
theorem appendMovement_idempotent :
    ∀ (st : InventoryState) (d : MovementDraft) (now now2 : Nat)
      (m : StockMovement) (st2 : InventoryState),
    appendMovement st d now = .ok (m, st2) →
    appendMovement st2 d now2 = .error (.DuplicateMovement m)
    ∧ applyAppend st2 d now2 = st2 := by
  intro st d now now2 m st2 h
  obtain ⟨hq, hfind, hfloor, hm, hst⟩ := appendMovement_ok_elim st d now m st2 h
  subst hm
  subst hst
  have hfind2 : (st.movements ++ [d.toMovement]).find?
      (fun mv => mv.movement_number == d.movement_number) = some d.toMovement := by
    rw [List.find?_append, hfind, Option.none_or, List.find?_cons]
    have hkey : (d.toMovement.movement_number == d.movement_number) = true := by
      simp [MovementDraft.toMovement]
    rw [hkey]
  have he : appendMovement
      { movements := st.movements ++ [d.toMovement],
        balances := UpsertStockBalance st.balances d.product_id d.location_id
          d.signedDelta 0 now } d now2 =
      .error (.DuplicateMovement d.toMovement) := by
    unfold appendMovement
    rw [if_neg (not_le.mpr hq)]
    dsimp only
    rw [hfind2]
  exact ⟨he, by unfold applyAppend; rw [he]⟩

/-- C4 witness: re-appending a concrete draft already committed in the
state fails with `DuplicateMovement` carrying the original movement and
leaves the state unchanged. -/
theorem appendMovement_idempotent_witness :
    appendMovement
      { movements := [⟨"MV-1", 1, 1, .in_, 50, none, none, 0, none, none⟩],
        balances := [⟨1, 1, 50, 0, 0⟩] }
      ⟨"MV-1", 1, 1, .in_, 50, false, false, none, none, 0, none, none⟩ 1 =
      .error (.DuplicateMovement ⟨"MV-1", 1, 1, .in_, 50, none, none, 0, none, none⟩)
    ∧ applyAppend
      { movements := [⟨"MV-1", 1, 1, .in_, 50, none, none, 0, none, none⟩],
        balances := [⟨1, 1, 50, 0, 0⟩] }
      ⟨"MV-1", 1, 1, .in_, 50, false, false, none, none, 0, none, none⟩ 1 =
      { movements := [⟨"MV-1", 1, 1, .in_, 50, none, none, 0, none, none⟩],
        balances := [⟨1, 1, 50, 0, 0⟩] } :=
  appendMovement_idempotent InventoryState.initial
    ⟨"MV-1", 1, 1, .in_, 50, false, false, none, none, 0, none, none⟩ 0 1
    ⟨"MV-1", 1, 1, .in_, 50, none, none, 0, none, none⟩
    { movements := [⟨"MV-1", 1, 1, .in_, 50, none, none, 0, none, none⟩],
      balances := [⟨1, 1, 50, 0, 0⟩] }
    rfl

/-- C5: an append whose signed delta would drive the pair's on-hand
quantity below zero is rejected with `InsufficientStock` and leaves the
balance unchanged, unless the draft is an unchecked adjustment (an
ordinary 'out' movement has signed delta `-quantity` and is never an
unchecked adjustment); conversely, an accepted append can leave on-hand
negative only if the draft was an unchecked adjustment. -/
theorem appendMovement_insufficient_stock :
    ∀ (st : InventoryState) (d : MovementDraft) (now : Nat),
    (0 < d.quantity →
      st.movements.find? (fun mv => mv.movement_number == d.movement_number) = none →
      st.onHand d.product_id d.location_id + d.signedDelta < 0 →
      d.isUncheckedAdjustment = false →
      appendMovement st d now = .error .InsufficientStock
      ∧ applyAppend st d now = st)
    ∧ (∀ (m : StockMovement) (st2 : InventoryState),
        appendMovement st d now = .ok (m, st2) →
        st2.onHand d.product_id d.location_id < 0 →
        d.isUncheckedAdjustment = true) := by
  intro st d now
  constructor
  · intro hq hfind hneg hu
    have he : appendMovement st d now = .error .InsufficientStock := by
      unfold appendMovement
      rw [if_neg (not_le.mpr hq)]
      dsimp only
      rw [hfind]
      have hcond : (decide (st.onHand d.product_id d.location_id + d.signedDelta < 0)
          && !d.isUncheckedAdjustment) = true := by
        rw [Bool.and_eq_true]
        exact ⟨decide_eq_true hneg, by rw [hu]; rfl⟩
      rw [if_pos hcond]
    exact ⟨he, by unfold applyAppend; rw [he]⟩
  · intro m st2 hok hneg
    have hoh := appendMovement_ok_onHand st d now m st2 hok
    refine (appendMovement_ok_elim st d now m st2 hok).2.2.1 ?_
    rw [← hoh]
    exact hneg

/-- C5 witness: an 'out' draft of 5 units against the empty state (on-hand
0) is rejected with `InsufficientStock` and the state is unchanged. -/
theorem appendMovement_insufficient_stock_witness :
    appendMovement InventoryState.initial
      ⟨"MV-2", 1, 1, .out, 5, false, false, none, none, 0, none, none⟩ 0 =
      .error .InsufficientStock
    ∧ applyAppend InventoryState.initial
      ⟨"MV-2", 1, 1, .out, 5, false, false, none, none, 0, none, none⟩ 0 =
      InventoryState.initial :=
  (appendMovement_insufficient_stock InventoryState.initial
    ⟨"MV-2", 1, 1, .out, 5, false, false, none, none, 0, none, none⟩ 0).1
    (by decide) rfl (by decide) rfl

/-- C2 counterexample: the code does not enforce `reserved ≤ on-hand` or
`available ≥ 0`.  Two legal operations — `UpsertStockBalance` creating
the (1,1) row with quantity 5, then `UpdateStockQuantity` incrementing
by −10 (neither query has a floor check) — leave the row at
quantity −5, reserved 0, so `reserved ≤ on_hand` is false and
`available_qty = −5 < 0`. -/
theorem balance_invariant_counterexample :
    UpdateStockQuantity (UpsertStockBalance [] 1 1 5 0 0) 1 1 (-10) 1 =
      [⟨1, 1, -5, 0, 1⟩]
    ∧ ¬((⟨1, 1, -5, 0, 1⟩ : StockBalance).reserved_qty ≤
        (⟨1, 1, -5, 0, 1⟩ : StockBalance).quantity)
    ∧ (⟨1, 1, -5, 0, 1⟩ : StockBalance).available_qty < 0 := by
  refine ⟨?_, by decide, by decide⟩
  rfl

/-- C2 (amended): `available_qty` always equals on-hand minus reserved
(it is a generated column), and `reserved ≤ on_hand` together with
`available ≥ 0` hold for every balance row of a state reached from the
empty database by append operations none of which is an unchecked
adjustment; direct balance writes (`UpsertStockBalance` with a positive
reserved argument, `UpdateStockQuantity` with a negative increment) are
not floor-checked and can violate them. -/
theorem balance_invariant_amended :
    ∀ (ds : List (MovementDraft × Nat)),
    (∀ dn ∈ ds, dn.1.isUncheckedAdjustment = false) →
    ∀ b ∈ (runAppends ds).balances,
      b.reserved_qty ≤ b.quantity
      ∧ b.available_qty = b.quantity - b.reserved_qty
      ∧ 0 ≤ b.available_qty := by
  have main : ∀ (ds : List (MovementDraft × Nat)) (st : InventoryState),
      (∀ dn ∈ ds, dn.1.isUncheckedAdjustment = false) →
      BalanceTable.WF st.balances →
      (∀ b ∈ st.balances, b.reserved_qty = 0 ∧ 0 ≤ b.quantity) →
      ∀ b ∈ (ds.foldl (fun s dn => applyAppend s dn.1 dn.2) st).balances,
        b.reserved_qty = 0 ∧ 0 ≤ b.quantity := by
    intro ds
    induction ds with
    | nil => intro st _ _ hrows; exact hrows
    | cons dn t ih =>
      intro st hds hWF hrows
      have step := applyAppend_rows_ok st dn.1 dn.2
        (hds dn (List.mem_cons_self dn t)) hWF hrows
      exact ih (applyAppend st dn.1 dn.2)
        (fun x hx => hds x (List.mem_cons_of_mem dn hx)) step.1 step.2
  intro ds hds b hb
  have h0 := main ds InventoryState.initial hds List.Pairwise.nil
    (fun b hb => absurd hb (List.not_mem_nil b)) b hb
  refine ⟨by omega, rfl, ?_⟩
  unfold StockBalance.available_qty
  omega

/-- C2 amended witness: after in-50 then out-20 on pair (1,1) from the
empty database, the resulting concrete row satisfies
reserved ≤ on-hand, available = on-hand − reserved, available ≥ 0. -/
theorem balance_invariant_amended_witness :
    (⟨1, 1, 30, 0, 1⟩ : StockBalance).reserved_qty ≤
      (⟨1, 1, 30, 0, 1⟩ : StockBalance).quantity
    ∧ (⟨1, 1, 30, 0, 1⟩ : StockBalance).available_qty =
      (⟨1, 1, 30, 0, 1⟩ : StockBalance).quantity -
        (⟨1, 1, 30, 0, 1⟩ : StockBalance).reserved_qty
    ∧ 0 ≤ (⟨1, 1, 30, 0, 1⟩ : StockBalance).available_qty :=
  balance_invariant_amended
    [(⟨"MV-1", 1, 1, .in_, 50, false, false, none, none, 0, none, none⟩, 0),
     (⟨"MV-2", 1, 1, .out, 20, false, false, none, none, 1, none, none⟩, 1)]
    (by decide) ⟨1, 1, 30, 0, 1⟩ (by decide)

/-- C8: each adjustment line's `difference` is the generated column
`quantity_after - quantity_before`, fixed at line insertion (the table
has no UPDATE query); confirming a draft header, with idempotency keys
fresh and pairwise distinct, succeeds and appends to the ledger exactly
one movement of kind 'adjustment' per line with `difference ≠ 0`, its
signed delta equal to the line's difference; for a single-line
adjustment whose pair still holds `quantity_before` on hand, the on-hand
quantity after confirmation is `quantity_after` (e.g. before 30,
after 45: one +15 movement and on-hand 45). -/
theorem adjustment_confirm_spec :
    ∀ (adj : StockAdjustment) (lks : List (StockAdjustmentLine × String))
      (st : InventoryState) (now : Nat),
    adj.status = .draft →
    (∀ lk ∈ lks, ∀ m ∈ st.movements, m.movement_number ≠ lk.2) →
    lks.Pairwise (fun a b => a.2 ≠ b.2) →
    (∃ st2 : InventoryState,
      confirmAdjustment adj lks st now =
        .ok (UpdateStockAdjustmentStatus adj .confirmed, st2)
      ∧ st2.movements = st.movements ++
          (lks.filter (fun lk => !(lk.1.difference == 0))).map
            (fun lk => (adjustmentDraft adj lk.1 lk.2).toMovement))
    ∧ (∀ lk ∈ lks,
        (adjustmentDraft adj lk.1 lk.2).toMovement.signedQty = lk.1.difference
        ∧ lk.1.difference = lk.1.quantity_after - lk.1.quantity_before
        ∧ (adjustmentDraft adj lk.1 lk.2).toMovement.movement_type = .adjustment)
    ∧ (∀ (ln : StockAdjustmentLine) (k : String),
        lks = [(ln, k)] →
        ln.difference ≠ 0 →
        st.onHand ln.product_id adj.location_id = ln.quantity_before →
        ∀ (adj2 : StockAdjustment) (st2 : InventoryState),
          confirmAdjustment adj lks st now = .ok (adj2, st2) →
          st2.onHand ln.product_id adj.location_id = ln.quantity_after) := by
  intro adj lks st now hdraft hfresh hpw
  have hne : (adj.status == AdjustmentStatus.confirmed) = false := by
    rw [hdraft]
    rfl
  refine ⟨?_, ?_, ?_⟩
  · refine ⟨lks.foldl (fun s lk =>
      if lk.1.difference = 0 then s
      else applyAppend s (adjustmentDraft adj lk.1 lk.2) now) st, ?_, ?_⟩
    · unfold confirmAdjustment
      rw [if_neg (by rw [hne]; exact Bool.noConfusion)]
    · exact confirm_fold_movements adj now lks st hfresh hpw
  · intro lk _
    refine ⟨?_, rfl, rfl⟩
    rw [signedQty_toMovement, adjustmentDraft_signedDelta]
  · intro ln k hlks hdiff honh adj2 st2 hconf
    subst hlks
    unfold confirmAdjustment at hconf
    rw [if_neg (by rw [hne]; exact Bool.noConfusion)] at hconf
    rw [List.foldl_cons, List.foldl_nil, if_neg hdiff] at hconf
    have hap := appendMovement_adjustment_ok st adj ln k now hdiff
      (hfresh (ln, k) (List.mem_cons_self (ln, k) []))
    have hstep : applyAppend st (adjustmentDraft adj ln k) now =
        { movements := st.movements ++ [(adjustmentDraft adj ln k).toMovement],
          balances := UpsertStockBalance st.balances ln.product_id adj.location_id
            (adjustmentDraft adj ln k).signedDelta 0 now } := by
      unfold applyAppend
      rw [hap]
    rw [hstep] at hconf
    simp only [Except.ok.injEq, Prod.mk.injEq] at hconf
    obtain ⟨_, hst2⟩ := hconf
    subst hst2
    have hoh := appendMovement_ok_onHand st (adjustmentDraft adj ln k) now
      (adjustmentDraft adj ln k).toMovement
      { movements := st.movements ++ [(adjustmentDraft adj ln k).toMovement],
        balances := UpsertStockBalance st.balances ln.product_id adj.location_id
          (adjustmentDraft adj ln k).signedDelta 0 now } hap
    have hpl : (adjustmentDraft adj ln k).product_id = ln.product_id := rfl
    have hll : (adjustmentDraft adj ln k).location_id = adj.location_id := rfl
    rw [hpl, hll] at hoh
    rw [hoh, honh, adjustmentDraft_signedDelta]
    unfold StockAdjustmentLine.difference
    omega

/-- C8 witness: the spec scenario.  A draft adjustment at location 1 with
one line (product 1, before 30, after 45) against a state holding 30 on
hand confirms to exactly one 'adjustment' movement of +15 and on-hand
45. -/
theorem adjustment_confirm_spec_witness :
    confirmAdjustment ⟨"ADJ-1", 1, 0, none, .draft, none⟩
      [(⟨1, 30, 45, 1, none⟩, "ADJ-1-1")]
      ⟨[], [⟨1, 1, 30, 0, 0⟩]⟩ 2 =
      .ok (⟨"ADJ-1", 1, 0, none, .confirmed, none⟩,
        ⟨[⟨"ADJ-1-1", 1, 1, .adjustment, 15, some "adjustment", none, 0, none, none⟩],
         [⟨1, 1, 45, 0, 2⟩]⟩)
    ∧ (⟨[⟨"ADJ-1-1", 1, 1, .adjustment, 15, some "adjustment", none, 0, none, none⟩],
         [⟨1, 1, 45, 0, 2⟩]⟩ : InventoryState).onHand 1 1 = 45 :=
  ⟨rfl,
   (adjustment_confirm_spec ⟨"ADJ-1", 1, 0, none, .draft, none⟩
      [(⟨1, 30, 45, 1, none⟩, "ADJ-1-1")]
      ⟨[], [⟨1, 1, 30, 0, 0⟩]⟩ 2 rfl
      (by intro lk hlk m hm; exact absurd hm (List.not_mem_nil m))
      (List.pairwise_singleton _ _)).2.2
      ⟨1, 30, 45, 1, none⟩ "ADJ-1-1" rfl (by decide) rfl
      ⟨"ADJ-1", 1, 0, none, .confirmed, none⟩
      ⟨[⟨"ADJ-1-1", 1, 1, .adjustment, 15, some "adjustment", none, 0, none, none⟩],
       [⟨1, 1, 45, 0, 2⟩]⟩ rfl⟩

end MiniErp
